import Mathlib

/-!
Verification of the task-resolution core of the `task` crate: the variable
model (`VariableName`, its canonical token rendering and template form), the
variable map (`TaskVariables`), the resolution context, and the
template-to-resolved-task transformation. Definitions are shallow embeddings
of `crates/task/src/lib.rs`; parts of the crate that live in
`task_template.rs` (not present in the sources) are modelled from the design
document and marked as such.
-/

/-- A prefix that all `VariableName` variants are prefixed with when used in
environment variables and similar template contexts.
Mirrors `ZED_VARIABLE_NAME_PREFIX` in `lib.rs`. -/
def ZED_VARIABLE_NAME_PREFIX : String := "ZED_"

/-- Variables available for use in a `TaskContext` when a `TaskTemplate` gets
resolved into a `ResolvedTask`. Mirrors `enum VariableName` in `lib.rs`;
`Cow` payloads become plain strings. -/
inductive VariableName where
  /-- An absolute path of the currently opened file. -/
  | File
  /-- An absolute path of the currently opened worktree, that contains the file. -/
  | WorktreeRoot
  /-- A symbol text, that contains latest cursor/selection position. -/
  | Symbol
  /-- A row with the latest cursor/selection position. -/
  | Row
  /-- A column with the latest cursor/selection position. -/
  | Column
  /-- Text from the latest selection. -/
  | SelectedText
  /-- Custom variable, provided by the plugin or other external source. -/
  | Custom (name : String)
deriving DecidableEq, Repr

/-- Canonical environment-variable token of a variable.
Mirrors `impl std::fmt::Display for VariableName` in `lib.rs`. -/
def VariableName.toString : VariableName → String
  | .File => ZED_VARIABLE_NAME_PREFIX ++ "FILE"
  | .WorktreeRoot => ZED_VARIABLE_NAME_PREFIX ++ "WORKTREE_ROOT"
  | .Symbol => ZED_VARIABLE_NAME_PREFIX ++ "SYMBOL"
  | .Row => ZED_VARIABLE_NAME_PREFIX ++ "ROW"
  | .Column => ZED_VARIABLE_NAME_PREFIX ++ "COLUMN"
  | .SelectedText => ZED_VARIABLE_NAME_PREFIX ++ "SELECTED_TEXT"
  | .Custom s => ZED_VARIABLE_NAME_PREFIX ++ "CUSTOM_" ++ s

/-- Generates a `$VARIABLE`-like string value to be used in templates.
Custom variables are wrapped in `$\x7b...\x7d` to avoid substitution issues
with whitespaces. Mirrors `VariableName::template_value` in `lib.rs`. -/
def VariableName.template_value (v : VariableName) : String :=
  match v with
  | .Custom _ => "$\x7b" ++ v.toString ++ "\x7d"
  | _ => "$" ++ v.toString

/-- Modelled from the spec: the parsing direction of the Variable Registry, absent
from the sources (`lib.rs` defines only the rendering direction). "Parsing the
rendered token back against the registry": an exact match of a built-in token
yields that built-in; a token carrying the `ZED_CUSTOM_` sub-prefix yields the
Custom variant with the remainder as payload; anything else is unknown. -/
def VariableName.fromString (s : String) : Option VariableName :=
  if s = "ZED_FILE" then some .File
  else if s = "ZED_WORKTREE_ROOT" then some .WorktreeRoot
  else if s = "ZED_SYMBOL" then some .Symbol
  else if s = "ZED_ROW" then some .Row
  else if s = "ZED_COLUMN" then some .Column
  else if s = "ZED_SELECTED_TEXT" then some .SelectedText
  else if "ZED_CUSTOM_".data.isPrefixOf s.data then
    some (.Custom (String.mk (s.data.drop 11)))
  else none

/-- Task identifier, unique within the application.
Mirrors `struct TaskId(pub String)` in `lib.rs`. -/
structure TaskId where
  /-- The underlying identifier string. -/
  id : String
deriving DecidableEq, Repr

/-- Modelled from the spec: the reveal-strategy policy of `task_template.rs`
(not present in the sources): what the terminal pane should do once the
process starts — focus it, keep it in the background, or only reveal it on
failure. -/
inductive RevealStrategy where
  /-- Focus the terminal pane. -/
  | Always
  /-- Keep the pane in the background. -/
  | Never
  /-- Only reveal the pane when the task fails. -/
  | OnError
deriving DecidableEq, Repr

/-- Association-list lookup, first match wins; the embedding of map reads on
unique-keyed maps. -/
def assocLookup {α β : Type} [DecidableEq α] : List (α × β) → α → Option β
  | [], _ => none
  | (k0, v0) :: rest, k => if k = k0 then some v0 else assocLookup rest k

/-- Association-list insert with overwrite: replaces the value at an existing
key in place, appends a fresh key at the end. The embedding of map writes on
unique-keyed maps. -/
def assocInsert {α β : Type} [DecidableEq α] : List (α × β) → α → β → List (α × β)
  | [], k, v => [(k, v)]
  | (k0, v0) :: rest, k, v =>
      if k = k0 then (k0, v) :: rest else (k0, v0) :: assocInsert rest k v

/-- Container for predefined environment variables that describe state of Zed
at the time the task was spawned. Mirrors `struct TaskVariables(HashMap<..>)`
in `lib.rs`; the hash map becomes an association list whose key set is meant
to be duplicate-free. -/
structure TaskVariables where
  /-- The key-value entries of the map. -/
  entries : List (VariableName × String)
deriving DecidableEq, Repr

/-- Reads the value stored for a variable. -/
def TaskVariables.lookup (tv : TaskVariables) (k : VariableName) : Option String :=
  assocLookup tv.entries k

/-- Inserts another variable into the container, overwriting the existing one
if it already exists — in this case, the old value is returned.
Mirrors `TaskVariables::insert` in `lib.rs`. -/
def TaskVariables.insert (tv : TaskVariables) (k : VariableName) (v : String) :
    Option String × TaskVariables :=
  (assocLookup tv.entries k, ⟨assocInsert tv.entries k v⟩)

/-- Extends the container with another one, overwriting the existing variables
on collision. Mirrors `TaskVariables::extend` in `lib.rs` (`HashMap::extend`
inserts the incoming entries one by one). -/
def TaskVariables.extend (tv other : TaskVariables) : TaskVariables :=
  ⟨other.entries.foldl (fun acc p => assocInsert acc p.1 p.2) tv.entries⟩

/-- Converts the container into a map of environment variables and their
values. Mirrors `TaskVariables::into_env_variables` in `lib.rs`: each key is
rendered to its canonical token and the pairs are collected into a map. -/
def TaskVariables.into_env_variables (tv : TaskVariables) : List (String × String) :=
  (tv.entries.map (fun p => (p.1.toString, p.2))).foldl
    (fun acc p => assocInsert acc p.1 p.2) []

/-- Keeps track of the file associated with a task and context of tasks
execution. Mirrors `struct TaskContext` in `lib.rs`; `PathBuf` becomes a
string. -/
structure TaskContext where
  /-- A path to a directory in which the task should be executed. -/
  cwd : Option String
  /-- Additional environment variables associated with a given task. -/
  task_variables : TaskVariables
deriving DecidableEq, Repr

/-- Modelled from the spec: `TaskTemplate` of `task_template.rs` (not present
in the sources): the provider-authored unresolved description — label, command
line, argument list, environment overrides, optional working-directory
override, concurrency/terminal-reuse policy and reveal behavior. -/
structure TaskTemplate where
  /-- Human-readable label; may contain variable tokens. -/
  label : String
  /-- Command line to execute; may contain variable tokens. -/
  command : String
  /-- Arguments to the command; each may contain variable tokens. -/
  args : List String
  /-- Environment-variable overrides; values may contain variable tokens. -/
  env : List (String × String)
  /-- Optional working-directory override. -/
  cwd : Option String
  /-- Whether a new terminal tab must be used versus reusing an existing one. -/
  use_new_terminal : Bool
  /-- Whether concurrent instances are permitted. -/
  allow_concurrent_runs : Bool
  /-- What the terminal pane should do once the process starts. -/
  reveal : RevealStrategy
deriving DecidableEq, Repr

/-- Contains all information needed by Zed to spawn a new terminal tab for
the given task. Mirrors `struct SpawnInTerminal` in `lib.rs`. -/
structure SpawnInTerminal where
  /-- Id of the task to use when determining task tab affinity. -/
  id : TaskId
  /-- Full unshortened form of `label` field. -/
  full_label : String
  /-- Human readable name of the terminal tab. -/
  label : String
  /-- Executable command to spawn. -/
  command : String
  /-- Arguments to the command. -/
  args : List String
  /-- Current working directory to spawn the command into. -/
  cwd : Option String
  /-- Env overrides for the command. -/
  env : List (String × String)
  /-- Whether to use a new terminal tab or reuse the existing one. -/
  use_new_terminal : Bool
  /-- Whether to allow multiple instances of the same task to be run. -/
  allow_concurrent_runs : Bool
  /-- What to do with the terminal pane and tab, after the command started. -/
  reveal : RevealStrategy
deriving DecidableEq, Repr

/-- A final form of the `TaskTemplate`, that got resolved with a particular
`TaskContext` and now is ready to spawn the actual task.
Mirrors `struct ResolvedTask` in `lib.rs`. -/
structure ResolvedTask where
  /-- A way to distinguish tasks produced by the same template, but different
  contexts. -/
  id : TaskId
  /-- A template the task got resolved from. -/
  original_task : TaskTemplate
  /-- Full, unshortened label of the task after all resolutions are made. -/
  resolved_label : String
  /-- Further actions that need to take place after the resolved task is
  spawned, with all task variables resolved. -/
  resolved : Option SpawnInTerminal
deriving DecidableEq, Repr

/-- Characters that may extend an unbraced variable token: letters, digits
and underscores, the shell-identifier alphabet. -/
def isTokenChar (c : Char) : Bool :=
  c.isAlpha || c.isDigit || c = '_'

/-- Splits a character list at the first closing brace: returns the characters
before it and the characters after it, or `none` when no closing brace
occurs. Helper for the braced `$\x7b...\x7d` token form. -/
def splitAtBrace : List Char → Option (List Char × List Char)
  | [] => none
  | c :: rest =>
      if c = '}' then some ([], rest)
      else
        match splitAtBrace rest with
        | some (name, after) => some (c :: name, after)
        | none => none

/-- Modelled from the spec: one scan step of token substitution over a
character list (`task_template.rs` is not present in the sources). Both the
braced and the unbraced form are recognised; an exact match of a known
rendered token of a known variable is replaced with its value; a token that matches no
known variable is left verbatim. The first argument is fuel, always at least
the length of the remaining input. -/
def substAux (m : List (String × String)) : Nat → List Char → List Char
  | 0, s => s
  | _ + 1, [] => []
  | fuel + 1, c :: rest =>
      if c = '$' then
        match rest with
        | '{' :: rest2 =>
            match splitAtBrace rest2 with
            | some (nameChars, after) =>
                match assocLookup m (String.mk nameChars) with
                | some v => v.data ++ substAux m fuel after
                | none => '$' :: '{' :: substAux m fuel rest2
            | none => '$' :: '{' :: substAux m fuel rest2
        | _ =>
            let tok := rest.takeWhile isTokenChar
            match assocLookup m (String.mk tok) with
            | some v => v.data ++ substAux m fuel (rest.dropWhile isTokenChar)
            | none => '$' :: substAux m fuel rest
      else c :: substAux m fuel rest

/-- Modelled from the spec: token substitution over one template string,
replacing exact matches of the rendered tokens of known variables with their values
and leaving unknown tokens verbatim. -/
def substituteVariables (m : List (String × String)) (s : String) : String :=
  String.mk (substAux m s.data.length s.data)

/-- Escapes a character list so that the field separator of the id encoding
cannot occur unescaped: backslashes and bars are preceded by a backslash. -/
def escList : List Char → List Char
  | [] => []
  | c :: cs =>
      if c = '\\' ∨ c = '|' then '\\' :: c :: escList cs else c :: escList cs

/-- Joins escaped fields with a bar separator; the encoding is injective on
the list of fields. -/
def encodeFields : List (List Char) → List Char
  | [] => []
  | f :: fs => escList f ++ '|' :: encodeFields fs

/-- Encodes an optional working directory as an id field, keeping `none`
distinct from every concrete directory. -/
def cwdField : Option String → List Char
  | none => []
  | some s => 'S' :: s.data

/-- Modelled from the spec: deterministic `TaskId` derivation of
`task_template.rs` (not present in the sources) — "a combination of template
identity and resolved content (at minimum: template label/command plus the
distinguishing values of the context)". The exact combination is
implementation-defined; here label, command, the working directory of the context
and the variables of the context are combined through an injective encoding. -/
def deriveIdString (t : TaskTemplate) (cx : TaskContext) : String :=
  String.mk (encodeFields
    ([t.label.data, t.command.data, cwdField cx.cwd] ++
      cx.task_variables.entries.map
        (fun p => (p.1.toString ++ "=" ++ p.2).data)))

/-- Modelled from the spec: `TaskTemplate::resolve` of `task_template.rs`
(not present in the sources). Substitutes tokens in every substitutable field
using the variables of the context keyed by their rendered tokens, computes the
working directory (template override, else context directory), derives the
stable id, and produces the `SpawnInTerminal` payload — absent exactly when
the template is structurally unusable because its command is empty. -/
def TaskTemplate.resolve (t : TaskTemplate) (cx : TaskContext) : ResolvedTask :=
  let varMap := cx.task_variables.into_env_variables
  let resolvedLabel := substituteVariables varMap t.label
  let id : TaskId := ⟨deriveIdString t cx⟩
  { id := id
    original_task := t
    resolved_label := resolvedLabel
    resolved :=
      if t.command = "" then none
      else
        some
          { id := id
            full_label := resolvedLabel
            label := resolvedLabel
            command := substituteVariables varMap t.command
            args := t.args.map (substituteVariables varMap)
            env := t.env.map (fun p => (p.1, substituteVariables varMap p.2))
            cwd :=
              match t.cwd with
              | some c => some (substituteVariables varMap c)
              | none => cx.cwd
            use_new_terminal := t.use_new_terminal
            allow_concurrent_runs := t.allow_concurrent_runs
            reveal := t.reveal } }

lemma isPrefixOf_append_self (l r : List Char) : l.isPrefixOf (l ++ r) = true := by
  induction l with
  | nil => simp [List.isPrefixOf]
  | cons c cs ih => simp [List.isPrefixOf, ih]

lemma custom_ne_of_take (s t : String) (h : t.data.take 11 ≠ "ZED_CUSTOM_".data) :
    "ZED_CUSTOM_" ++ s ≠ t := by
  intro he
  apply h
  have hd : ("ZED_CUSTOM_" ++ s).data = t.data := congrArg String.data he
  rw [String.data_append] at hd
  rw [← hd, show (11 : Nat) = "ZED_CUSTOM_".data.length from rfl, List.take_left]

lemma fromString_round (v : VariableName) :
    VariableName.fromString v.toString = some v := by
  cases v with
  | File => decide
  | WorktreeRoot => decide
  | Symbol => decide
  | Row => decide
  | Column => decide
  | SelectedText => decide
  | Custom s =>
      have h1 : VariableName.toString (.Custom s) = "ZED_CUSTOM_" ++ s := rfl
      rw [h1]
      unfold VariableName.fromString
      rw [if_neg (custom_ne_of_take s "ZED_FILE" (by decide)),
        if_neg (custom_ne_of_take s "ZED_WORKTREE_ROOT" (by decide)),
        if_neg (custom_ne_of_take s "ZED_SYMBOL" (by decide)),
        if_neg (custom_ne_of_take s "ZED_ROW" (by decide)),
        if_neg (custom_ne_of_take s "ZED_COLUMN" (by decide)),
        if_neg (custom_ne_of_take s "ZED_SELECTED_TEXT" (by decide)),
        if_pos (show "ZED_CUSTOM_".data.isPrefixOf ("ZED_CUSTOM_" ++ s).data = true from
          isPrefixOf_append_self "ZED_CUSTOM_".data s.data)]
      have hdrop : ("ZED_CUSTOM_" ++ s).data.drop 11 = s.data := by
        show ("ZED_CUSTOM_".data ++ s.data).drop 11 = s.data
        rw [show (11 : Nat) = "ZED_CUSTOM_".data.length from rfl, List.drop_left]
      rw [hdrop]

lemma toString_injective : Function.Injective VariableName.toString := by
  intro v1 v2 h
  have h2 := congrArg VariableName.fromString h
  rw [fromString_round, fromString_round] at h2
  simpa using h2

/-- C1: every `VariableName` renders to the fixed `ZED_` prefix followed by
the fixed suffix of the variant, and a custom variable to `ZED_CUSTOM_` followed by
its name, bit-exact. -/
theorem C1_canonical_token_rendering :
    VariableName.toString .File = "ZED_FILE" ∧
    VariableName.toString .WorktreeRoot = "ZED_WORKTREE_ROOT" ∧
    VariableName.toString .Symbol = "ZED_SYMBOL" ∧
    VariableName.toString .Row = "ZED_ROW" ∧
    VariableName.toString .Column = "ZED_COLUMN" ∧
    VariableName.toString .SelectedText = "ZED_SELECTED_TEXT" ∧
    ∀ name : String, VariableName.toString (.Custom name) = "ZED_CUSTOM_" ++ name :=
  ⟨rfl, rfl, rfl, rfl, rfl, rfl, fun _ => rfl⟩

/-- C3: `template_value` renders every built-in variant as the unbraced
`$TOKEN` and every custom variant as the braced form, where the token is the
canonical environment-variable token. -/
theorem C3_template_value_forms :
    VariableName.template_value .File = "$ZED_FILE" ∧
    VariableName.template_value .WorktreeRoot = "$ZED_WORKTREE_ROOT" ∧
    VariableName.template_value .Symbol = "$ZED_SYMBOL" ∧
    VariableName.template_value .Row = "$ZED_ROW" ∧
    VariableName.template_value .Column = "$ZED_COLUMN" ∧
    VariableName.template_value .SelectedText = "$ZED_SELECTED_TEXT" ∧
    (∀ v : VariableName, VariableName.template_value v = "$" ++ v.toString ∨
      VariableName.template_value v = "$\x7b" ++ v.toString ++ "\x7d") ∧
    ∀ name : String,
      VariableName.template_value (.Custom name) = "$\x7bZED_CUSTOM_" ++ name ++ "\x7d" :=
  ⟨rfl, rfl, rfl, rfl, rfl, rfl,
    fun v => by cases v <;> simp [VariableName.template_value],
    fun _ => rfl⟩

/-- C4: rendering any `VariableName` to its canonical token and parsing that
token back against the registry yields the same variable. -/
theorem C4_render_parse_round_trip (v : VariableName) :
    VariableName.fromString v.toString = some v :=
  fromString_round v

lemma assocLookup_insert {α β : Type} [DecidableEq α] (l : List (α × β)) (k : α) (v : β)
    (k' : α) :
    assocLookup (assocInsert l k v) k' = if k' = k then some v else assocLookup l k' := by
  induction l with
  | nil => by_cases h : k' = k <;> simp [assocInsert, assocLookup, h]
  | cons p rest ih =>
      obtain ⟨k0, v0⟩ := p
      by_cases hk : k = k0
      · subst hk
        by_cases h' : k' = k <;> simp [assocInsert, assocLookup, h']
      · by_cases h' : k' = k0 <;> by_cases h'' : k' = k <;>
          simp_all [assocInsert, assocLookup]

lemma assocLookup_eq_none {α β : Type} [DecidableEq α] (l : List (α × β)) (k : α)
    (h : k ∉ l.map Prod.fst) : assocLookup l k = none := by
  induction l with
  | nil => rfl
  | cons p rest ih =>
      obtain ⟨k0, v0⟩ := p
      simp only [List.map_cons, List.mem_cons] at h
      push_neg at h
      simp [assocLookup, h.1, ih h.2]

lemma assocLookup_foldl_insert {α β : Type} [DecidableEq α] (xs : List (α × β)) :
    ∀ (acc : List (α × β)) (k : α), (xs.map Prod.fst).Nodup →
    assocLookup (xs.foldl (fun acc p => assocInsert acc p.1 p.2) acc) k =
      match assocLookup xs k with
      | some v => some v
      | none => assocLookup acc k := by
  induction xs with
  | nil => intro acc k _; rfl
  | cons p rest ih =>
      intro acc k hnd
      obtain ⟨k0, v0⟩ := p
      simp only [List.map_cons, List.nodup_cons] at hnd
      obtain ⟨hk0, hrest⟩ := hnd
      rw [List.foldl_cons, ih _ k hrest]
      by_cases hk : k = k0
      · subst hk
        rw [assocLookup_eq_none rest k hk0]
        simp [assocLookup, assocLookup_insert]
      · cases hrk : assocLookup rest k with
        | some v => simp [assocLookup, hk, hrk]
        | none => simp [assocLookup, assocLookup_insert, hk, hrk]

lemma assocInsert_fresh {α β : Type} [DecidableEq α] (l : List (α × β)) (k : α) (v : β)
    (h : k ∉ l.map Prod.fst) : assocInsert l k v = l ++ [(k, v)] := by
  induction l with
  | nil => rfl
  | cons p rest ih =>
      obtain ⟨k0, v0⟩ := p
      simp only [List.map_cons, List.mem_cons] at h
      push_neg at h
      simp [assocInsert, h.1, ih h.2]

lemma foldl_insert_fresh_length {α β : Type} [DecidableEq α] (xs : List (α × β)) :
    ∀ acc : List (α × β), (xs.map Prod.fst).Nodup →
    (∀ k ∈ xs.map Prod.fst, k ∉ acc.map Prod.fst) →
    (xs.foldl (fun acc p => assocInsert acc p.1 p.2) acc).length = acc.length + xs.length := by
  induction xs with
  | nil => intro acc _ _; simp
  | cons p rest ih =>
      intro acc hnd hdis
      obtain ⟨k0, v0⟩ := p
      simp only [List.map_cons, List.nodup_cons] at hnd
      obtain ⟨hk0, hrest⟩ := hnd
      have hfresh : k0 ∉ acc.map Prod.fst := hdis k0 (by simp)
      rw [List.foldl_cons]
      show ((rest.foldl (fun acc p => assocInsert acc p.1 p.2)
        (assocInsert acc k0 v0))).length = acc.length + (rest.length + 1)
      rw [assocInsert_fresh acc k0 v0 hfresh, ih _ hrest ?_]
      · simp [List.length_append]
        omega
      · intro k hk
        simp only [List.map_append, List.mem_append, List.map_cons, List.map_nil,
          List.mem_singleton]
        push_neg
        refine ⟨hdis k (by simp [hk]), ?_⟩
        intro hkk
        exact hk0 (hkk ▸ hk)

lemma into_env_length (tv : TaskVariables) (h : (tv.entries.map Prod.fst).Nodup) :
    tv.into_env_variables.length = tv.entries.length := by
  unfold TaskVariables.into_env_variables
  rw [foldl_insert_fresh_length _ [] ?nd ?dis]
  case nd =>
    have h1 : (tv.entries.map (fun p => (p.1.toString, p.2))).map Prod.fst
        = (tv.entries.map Prod.fst).map VariableName.toString := by
      simp [List.map_map, Function.comp]
    rw [h1]
    exact h.map toString_injective
  case dis => intro k _ hk; simp at hk
  simp

/-- C8: inserting into a `TaskVariables` map returns the previously stored
value (`some v_old` when the key was present, `none` when absent) and stores
the new value under the key. -/
theorem C8_insert_semantics (tv : TaskVariables) (k : VariableName)
    (vold vnew : String) :
    (tv.lookup k = some vold →
      (tv.insert k vnew).1 = some vold ∧ (tv.insert k vnew).2.lookup k = some vnew) ∧
    (tv.lookup k = none →
      (tv.insert k vnew).1 = none ∧ (tv.insert k vnew).2.lookup k = some vnew) := by
  have hstore : (tv.insert k vnew).2.lookup k = some vnew := by
    show assocLookup (assocInsert tv.entries k vnew) k = some vnew
    rw [assocLookup_insert]
    simp
  exact ⟨fun h => ⟨h, hstore⟩, fun h => ⟨h, hstore⟩⟩

theorem C8_insert_semantics_witness :
    ((TaskVariables.mk [(VariableName.File, "a")]).insert .File "b").1 = some "a" ∧
    ((TaskVariables.mk [(VariableName.File, "a")]).insert .File "b").2.lookup .File
      = some "b" ∧
    ((TaskVariables.mk []).insert .File "b").1 = none ∧
    ((TaskVariables.mk []).insert .File "b").2.lookup .File = some "b" := by
  have h1 := (C8_insert_semantics ⟨[(VariableName.File, "a")]⟩ .File "a" "b").1 (by decide)
  have h2 := (C8_insert_semantics ⟨[]⟩ .File "a" "b").2 (by decide)
  exact ⟨h1.1, h1.2, h2.1, h2.2⟩

/-- C9: after `a.extend b`, every key present in `b` maps to the value from `b` (the
incoming operand wins on collision) and every other key keeps the value from `a`. -/
theorem C9_extend_right_wins (a b : TaskVariables)
    (hb : (b.entries.map Prod.fst).Nodup) (k : VariableName) :
    (∀ v : String, b.lookup k = some v → (a.extend b).lookup k = some v) ∧
    (b.lookup k = none → (a.extend b).lookup k = a.lookup k) := by
  have h := assocLookup_foldl_insert b.entries a.entries k hb
  constructor
  · intro v hv
    have hv' : assocLookup b.entries k = some v := hv
    rw [hv'] at h
    simpa [TaskVariables.lookup, TaskVariables.extend] using h
  · intro hv
    have hv' : assocLookup b.entries k = none := hv
    rw [hv'] at h
    simpa [TaskVariables.lookup, TaskVariables.extend] using h

theorem C9_extend_right_wins_witness :
    (TaskVariables.extend ⟨[(VariableName.File, "old"), (VariableName.Row, "1")]⟩
      ⟨[(VariableName.File, "new")]⟩).lookup .File = some "new" ∧
    (TaskVariables.extend ⟨[(VariableName.File, "old"), (VariableName.Row, "1")]⟩
      ⟨[(VariableName.File, "new")]⟩).lookup .Row = some "1" := by
  have h1 := (C9_extend_right_wins ⟨[(.File, "old"), (.Row, "1")]⟩ ⟨[(.File, "new")]⟩
    (by decide) .File).1 "new" (by decide)
  have h2 := (C9_extend_right_wins ⟨[(.File, "old"), (.Row, "1")]⟩ ⟨[(.File, "new")]⟩
    (by decide) .Row).2 (by decide)
  exact ⟨h1, h2.trans (by decide)⟩

/-- C10: canonical-token rendering is injective over all `VariableName`
values, and consequently `into_env_variables` maps an n-entry variable map to
an environment map with exactly n entries. -/
theorem C10_injective_rendering :
    (∀ v1 v2 : VariableName, v1.toString = v2.toString → v1 = v2) ∧
    (∀ tv : TaskVariables, (tv.entries.map Prod.fst).Nodup →
      tv.into_env_variables.length = tv.entries.length) :=
  ⟨fun _ _ h => toString_injective h, fun tv h => into_env_length tv h⟩

theorem C10_injective_rendering_witness :
    VariableName.File = VariableName.File ∧
    (TaskVariables.mk [(VariableName.File, "a"),
      (VariableName.Row, "1")]).into_env_variables.length = 2 := by
  refine ⟨C10_injective_rendering.1 .File .File rfl, ?_⟩
  have h := C10_injective_rendering.2 ⟨[(.File, "a"), (.Row, "1")]⟩ (by decide)
  simpa using h

/-- C5: resolution is total — it always returns a `ResolvedTask`, whose
`resolved` payload is absent exactly when the template is structurally
unusable because its command is empty. -/
theorem C5_resolve_total (t : TaskTemplate) (cx : TaskContext) :
    (t.resolve cx).resolved = none ↔ t.command = "" := by
  unfold TaskTemplate.resolve
  by_cases h : t.command = "" <;> simp [h]

/-- C6: resolution is deterministic — equal templates and equal contexts
yield equal ids, equal payloads, and equal resolved tasks. -/
theorem C6_resolve_deterministic (t1 t2 : TaskTemplate) (c1 c2 : TaskContext)
    (ht : t1 = t2) (hc : c1 = c2) :
    (t1.resolve c1).id = (t2.resolve c2).id ∧
    (t1.resolve c1).resolved = (t2.resolve c2).resolved ∧
    t1.resolve c1 = t2.resolve c2 := by
  subst ht
  subst hc
  exact ⟨rfl, rfl, rfl⟩

theorem C6_resolve_deterministic_witness :
    (TaskTemplate.resolve ⟨"l", "echo", [], [], none, false, false, .Always⟩
      ⟨some "/proj", ⟨[]⟩⟩).id =
    (TaskTemplate.resolve ⟨"l", "echo", [], [], none, false, false, .Always⟩
      ⟨some "/proj", ⟨[]⟩⟩).id :=
  (C6_resolve_deterministic _ _ _ _ rfl rfl).1

/-- Decodes one escaped field up to the bar separator; the left inverse of
`escList` followed by a separator. -/
def decodeField : List Char → Option (List Char × List Char)
  | [] => none
  | '\\' :: c :: rest =>
      match decodeField rest with
      | some (f, rem) => some (c :: f, rem)
      | none => none
  | '|' :: rest => some ([], rest)
  | c :: rest =>
      match decodeField rest with
      | some (f, rem) => some (c :: f, rem)
      | none => none

lemma decodeField_escList (a : List Char) :
    ∀ u : List Char, decodeField (escList a ++ '|' :: u) = some (a, u) := by
  induction a with
  | nil => intro u; simp [escList, decodeField]
  | cons c cs ih =>
      intro u
      by_cases hc : c = '\\' ∨ c = '|'
      · rw [show escList (c :: cs) = '\\' :: c :: escList cs from by simp [escList, hc]]
        rw [List.cons_append, List.cons_append, decodeField, ih u]
      · rw [show escList (c :: cs) = c :: escList cs from by simp [escList, hc]]
        push_neg at hc
        rw [List.cons_append]
        rw [show decodeField (c :: (escList cs ++ '|' :: u)) =
            match decodeField (escList cs ++ '|' :: u) with
            | some (f, rem) => some (c :: f, rem)
            | none => none from by
          rcases hlist : escList cs ++ '|' :: u with _ | ⟨d, ds⟩ <;>
            simp [decodeField, hc.1, hc.2]]
        rw [ih u]

lemma encodeFields_inj : ∀ xs ys : List (List Char),
    encodeFields xs = encodeFields ys → xs = ys := by
  intro xs
  induction xs with
  | nil =>
      intro ys h
      cases ys with
      | nil => rfl
      | cons g gs => simp [encodeFields] at h
  | cons f fs ih =>
      intro ys h
      cases ys with
      | nil => simp [encodeFields] at h
      | cons g gs =>
          simp only [encodeFields] at h
          have hd := congrArg decodeField h
          rw [decodeField_escList, decodeField_escList] at hd
          simp only [Option.some.injEq, Prod.mk.injEq] at hd
          rw [hd.1, ih gs hd.2]

lemma cwdField_inj (o1 o2 : Option String) (h : cwdField o1 = cwdField o2) : o1 = o2 := by
  cases o1 with
  | none =>
      cases o2 with
      | none => rfl
      | some s => simp [cwdField] at h
  | some s =>
      cases o2 with
      | none => simp [cwdField] at h
      | some s' =>
          simp only [cwdField, List.cons.injEq, true_and] at h
          rw [String.ext h]

/-- C7: resolving one template against two contexts whose working directories
differ yields different `TaskId` values. -/
theorem C7_distinct_ids_for_distinct_cwd (t : TaskTemplate) (c1 c2 : TaskContext)
    (h : c1.cwd ≠ c2.cwd) : (t.resolve c1).id ≠ (t.resolve c2).id := by
  intro heq
  apply h
  have hid : (TaskId.mk (deriveIdString t c1)) = TaskId.mk (deriveIdString t c2) := heq
  have hs : deriveIdString t c1 = deriveIdString t c2 := by
    simpa using hid
  have hdat := congrArg String.data hs
  have henc := encodeFields_inj _ _ hdat
  simp only [List.cons_append, List.nil_append, List.cons.injEq] at henc
  exact cwdField_inj _ _ henc.2.2.1

theorem C7_distinct_ids_witness :
    (TaskTemplate.resolve ⟨"l", "echo", [], [], none, false, false, .Always⟩
      ⟨none, ⟨[]⟩⟩).id ≠
    (TaskTemplate.resolve ⟨"l", "echo", [], [], none, false, false, .Always⟩
      ⟨some "/proj", ⟨[]⟩⟩).id :=
  C7_distinct_ids_for_distinct_cwd _ _ _ (by decide)

lemma substAux_no_dollar (m : List (String × String)) :
    ∀ (s : List Char) (fuel : Nat), '$' ∉ s → s.length ≤ fuel →
    substAux m fuel s = s := by
  intro s
  induction s with
  | nil => intro fuel _ _; cases fuel <;> rfl
  | cons c cs ih =>
      intro fuel hd hlen
      cases fuel with
      | zero => rfl
      | succ f =>
          simp only [List.mem_cons, not_or] at hd
          simp only [List.length_cons] at hlen
          rw [substAux.eq_def]
          show (if c = '$' then _ else c :: substAux m f cs) = c :: cs
          rw [if_neg (fun hh => hd.1 hh.symm), ih f hd.2 (by omega)]

lemma splitAtBrace_append (xs rest : List Char) (h : '}' ∉ xs) :
    splitAtBrace (xs ++ '}' :: rest) = some (xs, rest) := by
  induction xs with
  | nil => simp [splitAtBrace]
  | cons c cs ih =>
      simp only [List.mem_cons, not_or] at h
      rw [List.cons_append, splitAtBrace, if_neg (fun hh => h.1 hh.symm), ih h.2]

lemma substAux_dollar_braced (m : List (String × String)) (fuel : Nat)
    (rest2 : List Char) :
    substAux m (fuel + 1) ('$' :: '{' :: rest2) =
      match splitAtBrace rest2 with
      | some (nameChars, after) =>
          match assocLookup m (String.mk nameChars) with
          | some v => v.data ++ substAux m fuel after
          | none => '$' :: '{' :: substAux m fuel rest2
      | none => '$' :: '{' :: substAux m fuel rest2 := by
  rw [substAux]
  rfl

/-- C2: a braced token that matches no known variable is left verbatim by
substitution instead of aborting resolution; in particular a command
referencing an absent custom variable resolves to a command that still
contains the token literally. -/
theorem C2_unresolved_token_verbatim (m : List (String × String)) (name : String)
    (hd : '$' ∉ name.data) (hb : '}' ∉ name.data)
    (hm : assocLookup m name = none) :
    substituteVariables m ("$\x7b" ++ name ++ "\x7d") = "$\x7b" ++ name ++ "\x7d" ∧
    ((TaskTemplate.resolve
        ⟨"lbl", "echo ${ZED_CUSTOM_MODE}", [], [], none, false, false, .Always⟩
        ⟨some "/proj", ⟨[(.File, "/proj/a.rs")]⟩⟩).resolved.map
      SpawnInTerminal.command) = some "echo ${ZED_CUSTOM_MODE}" := by
  constructor
  · apply String.ext
    have hdata : ("$\x7b" ++ name ++ "\x7d").data = '$' :: '{' :: (name.data ++ ['}']) :=
      rfl
    show substAux m ("$\x7b" ++ name ++ "\x7d").data.length
        ("$\x7b" ++ name ++ "\x7d").data = ("$\x7b" ++ name ++ "\x7d").data
    rw [hdata]
    have hlen : ('$' :: '{' :: (name.data ++ ['}'])).length = name.data.length + 2 + 1 := by
      simp
    rw [hlen, substAux_dollar_braced, splitAtBrace_append name.data [] hb]
    have hred : (match some (name.data, ([] : List Char)) with
        | some (nameChars, after) =>
            match assocLookup m (String.mk nameChars) with
            | some v => v.data ++ substAux m (name.data.length + 2) after
            | none => '$' :: '{' :: substAux m (name.data.length + 2) (name.data ++ ['}'])
        | none => '$' :: '{' :: substAux m (name.data.length + 2) (name.data ++ ['}']))
        = match assocLookup m name with
          | some v => v.data ++ substAux m (name.data.length + 2) []
          | none => '$' :: '{' :: substAux m (name.data.length + 2) (name.data ++ ['}']) :=
      rfl
    rw [hred, hm]
    show '$' :: '{' :: substAux m (name.data.length + 2) (name.data ++ ['}'])
        = '$' :: '{' :: (name.data ++ ['}'])
    rw [substAux_no_dollar m (name.data ++ ['}']) (name.data.length + 2)
      (by simp [hd]) (by simp)]
  · decide

theorem C2_unresolved_token_verbatim_witness :
    substituteVariables [("ZED_FILE", "/proj/a.rs")]
      ("$\x7b" ++ "ZED_CUSTOM_MODE" ++ "\x7d") = "$\x7b" ++ "ZED_CUSTOM_MODE" ++ "\x7d" ∧
    ((TaskTemplate.resolve
        ⟨"lbl", "echo ${ZED_CUSTOM_MODE}", [], [], none, false, false, .Always⟩
        ⟨some "/proj", ⟨[(.File, "/proj/a.rs")]⟩⟩).resolved.map
      SpawnInTerminal.command) = some "echo ${ZED_CUSTOM_MODE}" :=
  C2_unresolved_token_verbatim [("ZED_FILE", "/proj/a.rs")] "ZED_CUSTOM_MODE"
    (by decide) (by decide) (by decide)
